import Mathlib

/-!
Verification of the WorkLog Settlement Engine.

The settlement engine selects eligible unpaid time segments for a date period,
aggregates them per worker into gross/net amounts (applying retroactive
adjustments keyed on worklog identity), and persists one Settlement per run
with one Remittance per active worker, plus RemittanceLines giving line-level
traceability. Segments of FAILED remittances are re-surfaced on the next run.

Money amounts are exact decimals, embedded as rationals (`ℚ`).
Dates and timestamps are embedded as natural numbers (day/tick counts),
which preserves the order structure the engine relies on.
Entity ids are natural numbers; a `nextId` counter models the store's
fresh-id allocation.
-/

namespace WorklogSettlement

/-- Adjustment type: a manual credit or debit against a worklog. -/
inductive AdjustmentType where
  | ADDITION
  | DEDUCTION
deriving DecidableEq, Repr

/-- Remittance payment status. `PENDING → PAID` and `PENDING → FAILED` are
driven by an external payment process; `FAILED` triggers re-settlement. -/
inductive RemittanceStatus where
  | PENDING
  | PAID
  | FAILED
deriving DecidableEq, Repr

/-- Settlement status: only COMPLETED is ever persisted (a run either
completes or the transaction aborts leaving no row). -/
inductive SettlementStatus where
  | COMPLETED
deriving DecidableEq, Repr

/-- One logged block of worked time with a rate, scoped to a worklog.
Soft deletion is a nullable deletion timestamp. -/
structure TimeSegment where
  id : Nat
  worklog_id : Nat
  hours_worked : ℚ
  hourly_rate : ℚ
  segment_date : Nat
  deleted_at : Option Nat
deriving DecidableEq, Repr

/-- `gross_amount = hours_worked × hourly_rate`, computed, not stored. -/
def TimeSegment.gross_amount (s : TimeSegment) : ℚ :=
  s.hours_worked * s.hourly_rate

/-- A unit of task ownership grouping time segments and adjustments for one
worker. -/
structure WorkLog where
  id : Nat
  worker_user_id : Nat
  task_identifier : String
deriving DecidableEq, Repr

/-- A manual correction (addition or deduction) applied to a worklog's
payable total, irrespective of settlement period. -/
structure Adjustment where
  id : Nat
  worklog_id : Nat
  adjustment_type : AdjustmentType
  amount : ℚ
deriving DecidableEq, Repr

/-- Signed effect of an adjustment: +amount for ADDITION, −amount for
DEDUCTION. -/
def Adjustment.signedAmount (a : Adjustment) : ℚ :=
  match a.adjustment_type with
  | .ADDITION => a.amount
  | .DEDUCTION => -a.amount

/-- One execution of the engine over a date period. -/
structure Settlement where
  id : Nat
  period_start : Nat
  period_end : Nat
  run_at : Nat
  status : SettlementStatus
  total_remittances_generated : Nat
deriving DecidableEq, Repr

/-- The computed amount owed to one worker from one settlement run. -/
structure Remittance where
  id : Nat
  settlement_id : Nat
  worker_user_id : Nat
  gross_amount : ℚ
  adjustments_amount : ℚ
  net_amount : ℚ
  status : RemittanceStatus
  paid_at : Option Nat
deriving DecidableEq, Repr

/-- The audit link from a remittance to one specific segment that funded it. -/
structure RemittanceLine where
  id : Nat
  remittance_id : Nat
  time_segment_id : Nat
  amount : ℚ
deriving DecidableEq, Repr

/-- The persistent store: the ledgers the engine reads and writes.
`nextId` models the store's fresh-id allocator: every id already allocated
to a Settlement/Remittance is below it. -/
structure DB where
  worklogs : List WorkLog
  segments : List TimeSegment
  adjustments : List Adjustment
  settlements : List Settlement
  remittances : List Remittance
  lines : List RemittanceLine
  nextId : Nat
deriving DecidableEq, Repr

/-- Error taxonomy of the engine (§7). `StorageFailure` is an external
collaborator concern and is not modelled. -/
inductive EngineError where
  | invalidPeriod
deriving DecidableEq, Repr

/-! ### Eligibility Selector -/

/-- True when the segment id is already linked via a RemittanceLine to a
Remittance whose status is not FAILED (i.e. PENDING or PAID). -/
def linkedNonFailed (db : DB) (sid : Nat) : Bool :=
  db.lines.any fun l =>
    l.time_segment_id == sid &&
      db.remittances.any fun r =>
        r.id == l.remittance_id && !(r.status == RemittanceStatus.FAILED)

/-- True when the segment id is linked via a RemittanceLine to a Remittance
currently in FAILED status. -/
def linkedFailed (db : DB) (sid : Nat) : Bool :=
  db.lines.any fun l =>
    l.time_segment_id == sid &&
      db.remittances.any fun r =>
        r.id == l.remittance_id && r.status == RemittanceStatus.FAILED

/-- Modelled from the spec (§4.1, implementation absent from the sources):
period-scoped eligibility query. Filters by `deleted_at IS NULL`, by
`segment_date BETWEEN period_start AND period_end` (inclusive both ends),
and excludes segments already linked to a non-FAILED remittance. -/
def select_unsettled_segments (db : DB) (ps pe : Nat) : List TimeSegment :=
  db.segments.filter fun s =>
    s.deleted_at.isNone &&
      decide (ps ≤ s.segment_date) && decide (s.segment_date ≤ pe) &&
      !(linkedNonFailed db s.id)

/-- Modelled from the spec (§4.1, implementation absent from the sources):
segments of any remittance currently in FAILED status, re-surfaced
unconditionally regardless of period. Soft-deleted segments and segments
meanwhile covered by a non-FAILED remittance stay excluded, as required by
the soft-delete and at-most-one-non-failed-remittance invariants (§3, §8). -/
def select_failed_remittance_segments (db : DB) : List TimeSegment :=
  db.segments.filter fun s =>
    s.deleted_at.isNone && linkedFailed db s.id && !(linkedNonFailed db s.id)

/-- Modelled from the spec (§4.1): the working set of a run is the
period-eligible segments united with the failed-remittance-recovered
segments, de-duplicated. -/
def workingSet (db : DB) (ps pe : Nat) : List TimeSegment :=
  (select_unsettled_segments db ps pe ++ select_failed_remittance_segments db).dedup

/-! ### Aggregator -/

/-- Worker owning a segment, looked up through its worklog. -/
def workerOf (db : DB) (s : TimeSegment) : Option Nat :=
  (db.worklogs.find? fun w => w.id == s.worklog_id).map (·.worker_user_id)

/-- Gross pay of a group of segments: exact-decimal sum of hours × rate. -/
def groupGross (G : List TimeSegment) : ℚ :=
  (G.map TimeSegment.gross_amount).sum

/-- Distinct worklog ids touched by a group of segments. -/
def touchedWorklogs (G : List TimeSegment) : List Nat :=
  (G.map TimeSegment.worklog_id).dedup

/-- Modelled from the spec (§4.2 step 4): signed sum over ALL adjustment
rows belonging to the worklogs touched by the group — not filtered by date,
which is what makes adjustments retroactive. -/
def groupAdjustments (db : DB) (G : List TimeSegment) : ℚ :=
  ((db.adjustments.filter fun a => (touchedWorklogs G).contains a.worklog_id).map
    Adjustment.signedAmount).sum

/-- The distinct workers owning segments of this run's working set. -/
def runWorkers (db : DB) (ps pe : Nat) : List Nat :=
  ((workingSet db ps pe).filterMap (workerOf db)).dedup

/-- Modelled from the spec (§4.2 step 1): the working set grouped by
worker. A worker appears here iff they own at least one eligible segment,
so workers with zero activity (gross = 0 and net = 0 because they have no
eligible segments) are excluded from output automatically. -/
def settledGroups (db : DB) (ps pe : Nat) : List (Nat × List TimeSegment) :=
  (runWorkers db ps pe).map fun w =>
    (w, (workingSet db ps pe).filter fun s => workerOf db s == some w)

/-! ### Settlement Writer -/

/-- The Remittance the writer creates for one worker's group: computed
gross/adjustments/net, status PENDING (§4.3 step 3). -/
def mkRemittance (db : DB) (sid rid w : Nat) (G : List TimeSegment) : Remittance :=
  { id := rid
    settlement_id := sid
    worker_user_id := w
    gross_amount := groupGross G
    adjustments_amount := groupAdjustments db G
    net_amount := groupGross G + groupAdjustments db G
    status := RemittanceStatus.PENDING
    paid_at := none }

/-- Builds the (Remittance, segment group) pairs of a run, allocating
consecutive fresh remittance ids starting at `rid`. -/
def buildOutputs (db : DB) (sid : Nat) : Nat → List (Nat × List TimeSegment) →
    List (Remittance × List TimeSegment)
  | _, [] => []
  | rid, (w, G) :: rest => (mkRemittance db sid rid w G, G) :: buildOutputs db sid (rid + 1) rest

/-- The remittance/segment-group pairs a run over `[ps, pe]` would create:
the settlement takes id `db.nextId`, remittances the ids after it. -/
def runOutputs (db : DB) (ps pe : Nat) : List (Remittance × List TimeSegment) :=
  buildOutputs db db.nextId (db.nextId + 1) (settledGroups db ps pe)

/-- The Remittances a run over `[ps, pe]` would create. -/
def newRemittances (db : DB) (ps pe : Nat) : List Remittance :=
  (runOutputs db ps pe).map Prod.fst

/-- The (remittance id, segment) pairs needing a RemittanceLine. -/
def linePairs (db : DB) (ps pe : Nat) : List (Nat × TimeSegment) :=
  (runOutputs db ps pe).flatMap fun p => p.2.map fun s => (p.1.id, s)

/-- Builds one RemittanceLine per (remittance id, segment) pair, allocating
consecutive fresh line ids starting at `n`. Each line records the segment's
gross amount at inclusion time (§3). -/
def buildLines : Nat → List (Nat × TimeSegment) → List RemittanceLine
  | _, [] => []
  | n, (rid, s) :: rest =>
      { id := n, remittance_id := rid, time_segment_id := s.id,
        amount := s.gross_amount } :: buildLines (n + 1) rest

/-- The RemittanceLines a run over `[ps, pe]` would create. -/
def newLines (db : DB) (ps pe : Nat) : List RemittanceLine :=
  buildLines (db.nextId + 1 + (settledGroups db ps pe).length) (linePairs db ps pe)

/-- The Settlement row of a run (§4.3 steps 2 and 4). -/
def newSettlement (db : DB) (now ps pe : Nat) : Settlement :=
  { id := db.nextId
    period_start := ps
    period_end := pe
    run_at := now
    status := SettlementStatus.COMPLETED
    total_remittances_generated := (newRemittances db ps pe).length }

/-- Result summary returned to the caller (§4.3, §6). -/
structure SettlementResult where
  settlement : Settlement
  remittances_created : Nat
  total_gross_amount : ℚ
  total_net_amount : ℚ
deriving DecidableEq, Repr

/-- The store after a successful run: the Settlement, the per-worker
PENDING Remittances and their RemittanceLines are appended as one atomic
unit, and the fresh-id counter moves past every id just allocated. -/
def postDB (db : DB) (now ps pe : Nat) : DB :=
  { db with
      settlements := db.settlements ++ [newSettlement db now ps pe]
      remittances := db.remittances ++ newRemittances db ps pe
      lines := db.lines ++ newLines db ps pe
      nextId := db.nextId + 1 + (settledGroups db ps pe).length +
        (linePairs db ps pe).length }

/-- The summary a successful run returns (§4.3 step 5, §6). -/
def runResult (db : DB) (now ps pe : Nat) : SettlementResult :=
  { settlement := newSettlement db now ps pe
    remittances_created := (newRemittances db ps pe).length
    total_gross_amount := ((newRemittances db ps pe).map Remittance.gross_amount).sum
    total_net_amount := ((newRemittances db ps pe).map Remittance.net_amount).sum }

/-- Modelled from the spec (§4.3, implementation absent from the sources):
one settlement run. Validates the period first, failing fast with
`InvalidPeriod` before any query or write; otherwise commits the new rows
atomically and returns the summary. Returning `Except.error` with no new
store models the aborted transaction: nothing is persisted. -/
def runSettlement (db : DB) (now ps pe : Nat) :
    Except EngineError (DB × SettlementResult) :=
  if pe < ps then .error .invalidPeriod
  else .ok (postDB db now ps pe, runResult db now ps pe)

/-- Modelled from the spec (§6, implementation absent from the sources):
the HTTP-facing entry point. `today` is the current date supplied by the
environment; an omitted `period_end` defaults to it. -/
def generate_remittances_for_all_users (db : DB) (today ps : Nat)
    (pe? : Option Nat) : Except EngineError (DB × SettlementResult) :=
  runSettlement db today ps (pe?.getD today)

/-- Applying one run to the store: an errored run leaves the store
unchanged (full rollback). The triple is (now, period_start, period_end). -/
def applyRun (db : DB) (p : Nat × Nat × Nat) : DB :=
  match runSettlement db p.1 p.2.1 p.2.2 with
  | .ok (db', _) => db'
  | .error _ => db

/-- Any number of settlement runs in sequence. -/
def applyRuns (db : DB) (runs : List (Nat × Nat × Nat)) : DB :=
  runs.foldl applyRun db

/-! ### Worklog listing (§6) -/

/-- A worklog's non-deleted segments. -/
def worklogSegments (db : DB) (wid : Nat) : List TimeSegment :=
  db.segments.filter fun s => s.worklog_id == wid && s.deleted_at.isNone

/-- Modelled from the spec (§6): `total_amount` of a worklog = sum of its
non-deleted segments' gross amounts plus all its adjustments (signed). -/
def worklogTotal (db : DB) (wid : Nat) : ℚ :=
  ((worklogSegments db wid).map TimeSegment.gross_amount).sum +
    ((db.adjustments.filter fun a => a.worklog_id == wid).map
      Adjustment.signedAmount).sum

/-- True when the segment id is linked via a RemittanceLine to a PAID
remittance. -/
def segmentPaid (db : DB) (sid : Nat) : Bool :=
  db.lines.any fun l =>
    l.time_segment_id == sid &&
      db.remittances.any fun r =>
        r.id == l.remittance_id && r.status == RemittanceStatus.PAID

/-- Modelled from the spec (§6): `is_remitted` = true iff every non-deleted
segment of the worklog is linked to a PAID remittance line. -/
def isRemitted (db : DB) (wid : Nat) : Bool :=
  (worklogSegments db wid).all fun s => segmentPaid db s.id

/-- One item of the listing response (§6). -/
structure WorkLogItem where
  id : Nat
  worker_user_id : Nat
  task_identifier : String
  total_amount : ℚ
  is_remitted : Bool
deriving DecidableEq, Repr

/-- Optional remittance-status filter of the listing query. -/
inductive RemitFilter where
  | REMITTED
  | UNREMITTED
deriving DecidableEq, Repr

/-- Modelled from the spec (§6, implementation absent from the sources):
`list_worklogs(skip, limit, remittance_status)`. Returns the page of items
and the total count of worklogs matching the filter. -/
def list_worklogs (db : DB) (skip limit : Nat) (f : Option RemitFilter) :
    List WorkLogItem × Nat :=
  let items := db.worklogs.map fun w =>
    { id := w.id
      worker_user_id := w.worker_user_id
      task_identifier := w.task_identifier
      total_amount := worklogTotal db w.id
      is_remitted := isRemitted db w.id : WorkLogItem }
  let filtered := match f with
    | none => items
    | some .REMITTED => items.filter (·.is_remitted)
    | some .UNREMITTED => items.filter fun i => !i.is_remitted
  ((filtered.drop skip).take limit, filtered.length)

/-! ### Well-formedness and invariants -/

/-- Store well-formedness: allocated Settlement/Remittance ids and the
remittance ids referenced by lines are below the fresh-id counter; ids are
unique per table; every segment's worklog exists. These are the relational
store's key/foreign-key guarantees. -/
def WF (db : DB) : Prop :=
  (∀ r ∈ db.remittances, r.id < db.nextId) ∧
  (∀ l ∈ db.lines, l.remittance_id < db.nextId) ∧
  (db.remittances.map Remittance.id).Nodup ∧
  (db.segments.map TimeSegment.id).Nodup ∧
  (∀ s ∈ db.segments, ∃ w ∈ db.worklogs, w.id = s.worklog_id)

instance (db : DB) : Decidable (WF db) := by
  unfold WF; infer_instance

/-- The non-FAILED remittances containing a RemittanceLine that references
the given segment id. -/
def payers (db : DB) (sid : Nat) : List Remittance :=
  db.remittances.filter fun r =>
    !(r.status == RemittanceStatus.FAILED) &&
      db.lines.any fun l => l.remittance_id == r.id && l.time_segment_id == sid

/-- The no-double-pay invariant (§3, §8): every non-soft-deleted segment is
contained in at most one Remittance whose status is not FAILED. -/
def NoDoublePay (db : DB) : Prop :=
  ∀ s ∈ db.segments, s.deleted_at = none → (payers db s.id).length ≤ 1

instance (db : DB) : Decidable (NoDoublePay db) := by
  unfold NoDoublePay; infer_instance

/-! ### Small concrete stores, used to evaluate the theorems on concrete
inputs -/

/-- An empty store. -/
def dbEmpty : DB :=
  { worklogs := [], segments := [], adjustments := [], settlements := [],
    remittances := [], lines := [], nextId := 0 }

/-- A 1 h × $10 segment dated 5. -/
def segNeg : TimeSegment :=
  { id := 2, worklog_id := 1, hours_worked := 1, hourly_rate := 10,
    segment_date := 5, deleted_at := none }

/-- A $50 deduction against worklog 1. -/
def adjNeg : Adjustment :=
  { id := 3, worklog_id := 1,
    adjustment_type := AdjustmentType.DEDUCTION, amount := 50 }

/-- One worker, one worklog, one 1 h × $10 segment dated 5, and a $50
deduction: a run over [5, 5] nets −40. -/
def dbNeg : DB :=
  { worklogs := [{ id := 1, worker_user_id := 7, task_identifier := "T1" }],
    segments := [segNeg],
    adjustments := [adjNeg],
    settlements := [], remittances := [], lines := [], nextId := 4 }

/-- An 8 h × $60 segment dated 5. -/
def segFailed : TimeSegment :=
  { id := 2, worklog_id := 1, hours_worked := 8, hourly_rate := 60,
    segment_date := 5, deleted_at := none }

/-- One segment whose only remittance FAILED: the retry scenario. -/
def dbFailed : DB :=
  { worklogs := [{ id := 1, worker_user_id := 7, task_identifier := "T3" }],
    segments := [segFailed],
    adjustments := [],
    settlements := [],
    remittances := [
      { id := 3, settlement_id := 0, worker_user_id := 7,
        gross_amount := 480, adjustments_amount := 0, net_amount := 480,
        status := RemittanceStatus.FAILED, paid_at := none }],
    lines := [
      { id := 4, remittance_id := 3, time_segment_id := 2, amount := 480 }],
    nextId := 10 }

/-- A soft-deleted 3 h × $50 segment. -/
def segDeleted : TimeSegment :=
  { id := 3, worklog_id := 1, hours_worked := 3, hourly_rate := 50,
    segment_date := 6, deleted_at := some 9 }

/-- One active and one soft-deleted segment in the same worklog. -/
def dbDeleted : DB :=
  { worklogs := [{ id := 1, worker_user_id := 7, task_identifier := "T6" }],
    segments := [
      { id := 2, worklog_id := 1, hours_worked := 5, hourly_rate := 50,
        segment_date := 5, deleted_at := none },
      segDeleted],
    adjustments := [], settlements := [], remittances := [], lines := [],
    nextId := 4 }

/-- One worklog whose only remittance is still PENDING. -/
def dbPending : DB :=
  { worklogs := [{ id := 1, worker_user_id := 7, task_identifier := "T9" }],
    segments := [
      { id := 2, worklog_id := 1, hours_worked := 5, hourly_rate := 50,
        segment_date := 5, deleted_at := none }],
    adjustments := [],
    settlements := [],
    remittances := [
      { id := 3, settlement_id := 0, worker_user_id := 7,
        gross_amount := 250, adjustments_amount := 0, net_amount := 250,
        status := RemittanceStatus.PENDING, paid_at := none }],
    lines := [
      { id := 4, remittance_id := 3, time_segment_id := 2, amount := 250 }],
    nextId := 10 }

/-! ### Selector lemmas -/

theorem mem_select_unsettled_iff (db : DB) (ps pe : Nat) (s : TimeSegment) :
    s ∈ select_unsettled_segments db ps pe ↔
      s ∈ db.segments ∧ s.deleted_at = none ∧ ps ≤ s.segment_date ∧
        s.segment_date ≤ pe ∧ linkedNonFailed db s.id = false := by
  simp [select_unsettled_segments, List.mem_filter, Option.isNone_iff_eq_none,
    and_assoc]

theorem mem_select_failed_iff (db : DB) (s : TimeSegment) :
    s ∈ select_failed_remittance_segments db ↔
      s ∈ db.segments ∧ s.deleted_at = none ∧ linkedFailed db s.id = true ∧
        linkedNonFailed db s.id = false := by
  simp [select_failed_remittance_segments, List.mem_filter,
    Option.isNone_iff_eq_none, and_assoc]

theorem mem_workingSet_iff (db : DB) (ps pe : Nat) (s : TimeSegment) :
    s ∈ workingSet db ps pe ↔
      s ∈ select_unsettled_segments db ps pe ∨
        s ∈ select_failed_remittance_segments db := by
  simp [workingSet, List.mem_dedup, List.mem_append]

/-- Every working-set segment is a stored, non-deleted segment that is not
already linked to a non-FAILED remittance. -/
theorem workingSet_props {db : DB} {ps pe : Nat} {s : TimeSegment}
    (h : s ∈ workingSet db ps pe) :
    s ∈ db.segments ∧ s.deleted_at = none ∧ linkedNonFailed db s.id = false := by
  rcases (mem_workingSet_iff db ps pe s).mp h with h1 | h1
  · rcases (mem_select_unsettled_iff db ps pe s).mp h1 with ⟨a, b, _, _, c⟩
    exact ⟨a, b, c⟩
  · rcases (mem_select_failed_iff db s).mp h1 with ⟨a, b, _, c⟩
    exact ⟨a, b, c⟩

theorem workingSet_nodup (db : DB) (ps pe : Nat) : (workingSet db ps pe).Nodup :=
  List.nodup_dedup _

/-- Under well-formedness, segments are determined by their ids. -/
theorem seg_id_inj {db : DB} (hwf : WF db) {s t : TimeSegment}
    (hs : s ∈ db.segments) (ht : t ∈ db.segments) (h : s.id = t.id) : s = t := by
  exact List.inj_on_of_nodup_map hwf.2.2.2.1 hs ht h

/-! ### Writer construction lemmas -/

theorem buildOutputs_ids (db : DB) (sid : Nat) :
    ∀ (n : Nat) (gs : List (Nat × List TimeSegment)),
      (buildOutputs db sid n gs).map (fun p => p.1.id) = List.range' n gs.length
  | _, [] => rfl
  | n, (w, G) :: rest => by
      simp [buildOutputs, mkRemittance, List.range'_succ, buildOutputs_ids db sid (n + 1) rest]

theorem buildOutputs_id_bounds {db : DB} {sid n : Nat}
    {gs : List (Nat × List TimeSegment)} {p : Remittance × List TimeSegment}
    (h : p ∈ buildOutputs db sid n gs) : n ≤ p.1.id ∧ p.1.id < n + gs.length := by
  have : p.1.id ∈ (buildOutputs db sid n gs).map (fun p => p.1.id) :=
    List.mem_map_of_mem _ h
  rw [buildOutputs_ids] at this
  exact List.mem_range'_1.mp this

theorem mem_buildOutputs {db : DB} {sid : Nat} :
    ∀ {n : Nat} {gs : List (Nat × List TimeSegment)}
      {p : Remittance × List TimeSegment}, p ∈ buildOutputs db sid n gs →
      ∃ w, (w, p.2) ∈ gs ∧ p.1 = mkRemittance db sid p.1.id w p.2 := by
  intro n gs
  induction gs generalizing n with
  | nil => intro p h; simp [buildOutputs] at h
  | cons hd tl ih =>
      intro p h
      obtain ⟨w, G⟩ := hd
      rcases (List.mem_cons).mp h with h | h
      · subst h
        exact ⟨w, List.mem_cons_self _ _, rfl⟩
      · obtain ⟨w', hw', he⟩ := ih h
        exact ⟨w', List.mem_cons_of_mem _ hw', he⟩

theorem buildOutputs_mem_of_mem {db : DB} {sid : Nat} :
    ∀ {n : Nat} {gs : List (Nat × List TimeSegment)} {w : Nat}
      {G : List TimeSegment}, (w, G) ∈ gs →
      ∃ p ∈ buildOutputs db sid n gs, p.1.worker_user_id = w ∧ p.2 = G := by
  intro n gs
  induction gs generalizing n with
  | nil => intro w G h; simp at h
  | cons hd tl ih =>
      intro w G h
      obtain ⟨w0, G0⟩ := hd
      rcases (List.mem_cons).mp h with h | h
      · obtain ⟨hw, hG⟩ := Prod.mk.injEq .. ▸ h
        refine ⟨(mkRemittance db sid n w0 G0, G0), List.mem_cons_self _ _, ?_, ?_⟩
        · simp [mkRemittance, hw.symm]
        · exact hG.symm ▸ rfl
      · obtain ⟨p, hp, he⟩ := ih h
        exact ⟨p, List.mem_cons_of_mem _ hp, he⟩

theorem buildOutputs_id_inj {db : DB} {sid n : Nat}
    {gs : List (Nat × List TimeSegment)} {p q : Remittance × List TimeSegment}
    (hp : p ∈ buildOutputs db sid n gs) (hq : q ∈ buildOutputs db sid n gs)
    (h : p.1.id = q.1.id) : p = q := by
  induction gs generalizing n with
  | nil => simp [buildOutputs] at hp
  | cons hd tl ih =>
      obtain ⟨w, G⟩ := hd
      rcases (List.mem_cons).mp hp with hp' | hp' <;>
        rcases (List.mem_cons).mp hq with hq' | hq'
      · exact hp'.trans hq'.symm
      · exfalso
        have := (buildOutputs_id_bounds hq').1
        subst hp'
        simp [mkRemittance] at h
        omega
      · exfalso
        have := (buildOutputs_id_bounds hp').1
        subst hq'
        simp [mkRemittance] at h
        omega
      · exact ih hp' hq'

theorem mem_buildLines :
    ∀ {n : Nat} {ps : List (Nat × TimeSegment)} {l : RemittanceLine},
      l ∈ buildLines n ps →
      ∃ q ∈ ps, l.remittance_id = q.1 ∧ l.time_segment_id = q.2.id ∧
        l.amount = q.2.gross_amount := by
  intro n ps
  induction ps generalizing n with
  | nil => intro l h; simp [buildLines] at h
  | cons hd tl ih =>
      intro l h
      obtain ⟨rid, s⟩ := hd
      rcases (List.mem_cons).mp h with h | h
      · subst h
        exact ⟨(rid, s), List.mem_cons_self _ _, rfl, rfl, rfl⟩
      · obtain ⟨q, hq, he⟩ := ih h
        exact ⟨q, List.mem_cons_of_mem _ hq, he⟩

theorem buildLines_mem_of_mem :
    ∀ {n : Nat} {ps : List (Nat × TimeSegment)} {q : Nat × TimeSegment},
      q ∈ ps → ∃ l ∈ buildLines n ps,
        l.remittance_id = q.1 ∧ l.time_segment_id = q.2.id := by
  intro n ps
  induction ps generalizing n with
  | nil => intro q h; simp at h
  | cons hd tl ih =>
      intro q h
      obtain ⟨rid, s⟩ := hd
      rcases (List.mem_cons).mp h with h | h
      · subst h
        exact ⟨_, List.mem_cons_self _ _, rfl, rfl⟩
      · obtain ⟨l, hl, he⟩ := ih h
        exact ⟨l, List.mem_cons_of_mem _ hl, he⟩

theorem mem_linePairs_iff (db : DB) (ps pe : Nat) (rid : Nat) (s : TimeSegment) :
    (rid, s) ∈ linePairs db ps pe ↔
      ∃ p ∈ runOutputs db ps pe, p.1.id = rid ∧ s ∈ p.2 := by
  simp only [linePairs, List.mem_flatMap, List.mem_map]
  constructor
  · rintro ⟨p, hp, t, ht, heq⟩
    obtain ⟨h1, h2⟩ := Prod.mk.injEq .. ▸ heq
    exact ⟨p, hp, h1, h2 ▸ ht⟩
  · rintro ⟨p, hp, h1, h2⟩
    exact ⟨p, hp, s, h2, by rw [h1]⟩

/-! ### Grouping lemmas -/

theorem mem_settledGroups_iff (db : DB) (ps pe : Nat)
    (pr : Nat × List TimeSegment) :
    pr ∈ settledGroups db ps pe ↔
      pr.1 ∈ runWorkers db ps pe ∧
        pr.2 = (workingSet db ps pe).filter fun s => workerOf db s == some pr.1 := by
  simp only [settledGroups, List.mem_map]
  constructor
  · rintro ⟨w, hw, heq⟩
    obtain ⟨h1, h2⟩ := Prod.mk.injEq .. ▸ heq.symm
    exact ⟨h1 ▸ hw, by rw [h2, h1]⟩
  · rintro ⟨h1, h2⟩
    exact ⟨pr.1, h1, by rw [← h2]⟩

theorem seg_of_group {db : DB} {ps pe : Nat} {pr : Nat × List TimeSegment}
    (hpr : pr ∈ settledGroups db ps pe) {s : TimeSegment} (hs : s ∈ pr.2) :
    s ∈ workingSet db ps pe ∧ workerOf db s = some pr.1 := by
  obtain ⟨_, h2⟩ := (mem_settledGroups_iff db ps pe pr).mp hpr
  rw [h2] at hs
  have := List.mem_filter.mp hs
  exact ⟨this.1, by simpa using this.2⟩

/-- A segment lies in at most one group: groups partition the working set
by worker. -/
theorem group_unique {db : DB} {ps pe : Nat} {pr qr : Nat × List TimeSegment}
    (hpr : pr ∈ settledGroups db ps pe) (hqr : qr ∈ settledGroups db ps pe)
    {s : TimeSegment} (hs : s ∈ pr.2) (ht : s ∈ qr.2) : pr = qr := by
  have h1 := seg_of_group hpr hs
  have h2 := seg_of_group hqr ht
  have hw : pr.1 = qr.1 := by
    have := h1.2.symm.trans h2.2
    exact Option.some.inj this
  obtain ⟨_, hG1⟩ := (mem_settledGroups_iff db ps pe pr).mp hpr
  obtain ⟨_, hG2⟩ := (mem_settledGroups_iff db ps pe qr).mp hqr
  have : pr.2 = qr.2 := by rw [hG1, hG2, hw]
  exact Prod.ext hw this

theorem group_exists {db : DB} {ps pe : Nat} {s : TimeSegment} {w : Nat}
    (hs : s ∈ workingSet db ps pe) (hw : workerOf db s = some w) :
    ∃ pr ∈ settledGroups db ps pe, pr.1 = w ∧ s ∈ pr.2 := by
  have hwmem : w ∈ runWorkers db ps pe := by
    simp only [runWorkers, List.mem_dedup, List.mem_filterMap]
    exact ⟨s, hs, hw⟩
  refine ⟨(w, (workingSet db ps pe).filter fun t => workerOf db t == some w), ?_, rfl, ?_⟩
  · exact (mem_settledGroups_iff db ps pe _).mpr ⟨hwmem, rfl⟩
  · exact List.mem_filter.mpr ⟨hs, by simp [hw]⟩

/-- Each group is a sublist of the working set, hence has no duplicate
segments. -/
theorem group_nodup {db : DB} {ps pe : Nat} {pr : Nat × List TimeSegment}
    (hpr : pr ∈ settledGroups db ps pe) : pr.2.Nodup := by
  obtain ⟨_, h2⟩ := (mem_settledGroups_iff db ps pe pr).mp hpr
  rw [h2]
  exact (workingSet_nodup db ps pe).filter _

/-- Under WF, every working-set segment has a worker, so it lands in some
group of the run. -/
theorem group_exists_of_wf {db : DB} (hwf : WF db) {ps pe : Nat}
    {s : TimeSegment} (hs : s ∈ workingSet db ps pe) :
    ∃ pr ∈ settledGroups db ps pe, s ∈ pr.2 := by
  have hseg : s ∈ db.segments := (workingSet_props hs).1
  obtain ⟨w, hwmem, hwid⟩ := hwf.2.2.2.2 s hseg
  have hsome : (db.worklogs.find? fun w => w.id == s.worklog_id).isSome := by
    rw [List.find?_isSome]
    exact ⟨w, hwmem, by simp [hwid]⟩
  obtain ⟨w', hw'⟩ := Option.isSome_iff_exists.mp hsome
  have hworker : workerOf db s = some w'.worker_user_id := by
    simp [workerOf, hw']
  obtain ⟨pr, hpr, _, hspr⟩ := group_exists hs hworker
  exact ⟨pr, hpr, hspr⟩

/-! ### Run output lemmas -/

theorem runOutputs_id_bounds {db : DB} {ps pe : Nat}
    {p : Remittance × List TimeSegment} (hp : p ∈ runOutputs db ps pe) :
    db.nextId + 1 ≤ p.1.id ∧
      p.1.id < db.nextId + 1 + (settledGroups db ps pe).length :=
  buildOutputs_id_bounds hp

theorem runOutputs_spec {db : DB} {ps pe : Nat}
    {p : Remittance × List TimeSegment} (hp : p ∈ runOutputs db ps pe) :
    (p.1.worker_user_id, p.2) ∈ settledGroups db ps pe ∧
      p.1.status = RemittanceStatus.PENDING ∧
      p.1.settlement_id = db.nextId ∧
      p.1.gross_amount = groupGross p.2 ∧
      p.1.adjustments_amount = groupAdjustments db p.2 ∧
      p.1.net_amount = groupGross p.2 + groupAdjustments db p.2 := by
  obtain ⟨w, hw, he⟩ := mem_buildOutputs hp
  have hwu : p.1.worker_user_id = w := by rw [he]; rfl
  refine ⟨hwu ▸ hw, ?_, ?_, ?_, ?_, ?_⟩ <;> rw [he] <;> rfl

theorem mem_newRemittances_iff (db : DB) (ps pe : Nat) (r : Remittance) :
    r ∈ newRemittances db ps pe ↔ ∃ p ∈ runOutputs db ps pe, p.1 = r := by
  simp [newRemittances, List.mem_map]

theorem newRemittances_ids (db : DB) (ps pe : Nat) :
    (newRemittances db ps pe).map Remittance.id =
      List.range' (db.nextId + 1) (settledGroups db ps pe).length := by
  have : (newRemittances db ps pe).map Remittance.id =
      (runOutputs db ps pe).map fun p => p.1.id := by
    simp [newRemittances, List.map_map]
  rw [this]
  exact buildOutputs_ids db db.nextId (db.nextId + 1) (settledGroups db ps pe)

theorem newRemittances_nodup (db : DB) (ps pe : Nat) :
    (newRemittances db ps pe).Nodup := by
  have h : ((newRemittances db ps pe).map Remittance.id).Nodup := by
    rw [newRemittances_ids]; exact List.nodup_range' _ _
  exact h.of_map

theorem mem_newLines {db : DB} {ps pe : Nat} {l : RemittanceLine}
    (hl : l ∈ newLines db ps pe) :
    ∃ p ∈ runOutputs db ps pe, ∃ s ∈ p.2,
      l.remittance_id = p.1.id ∧ l.time_segment_id = s.id ∧
        l.amount = s.gross_amount := by
  obtain ⟨⟨rid, s⟩, hq, h1, h2, h3⟩ := mem_buildLines hl
  obtain ⟨p, hp, hid, hs⟩ := (mem_linePairs_iff db ps pe rid s).mp hq
  exact ⟨p, hp, s, hs, by rw [h1, hid], h2, h3⟩

theorem newLines_of_group_mem {db : DB} {ps pe : Nat}
    {p : Remittance × List TimeSegment} (hp : p ∈ runOutputs db ps pe)
    {s : TimeSegment} (hs : s ∈ p.2) :
    ∃ l ∈ newLines db ps pe,
      l.remittance_id = p.1.id ∧ l.time_segment_id = s.id := by
  have hmem : (p.1.id, s) ∈ linePairs db ps pe :=
    (mem_linePairs_iff db ps pe p.1.id s).mpr ⟨p, hp, rfl, hs⟩
  exact buildLines_mem_of_mem hmem

theorem newLines_rid_bounds {db : DB} {ps pe : Nat} {l : RemittanceLine}
    (hl : l ∈ newLines db ps pe) :
    db.nextId + 1 ≤ l.remittance_id ∧
      l.remittance_id < db.nextId + 1 + (settledGroups db ps pe).length := by
  obtain ⟨p, hp, _, _, h1, _, _⟩ := mem_newLines hl
  have := runOutputs_id_bounds hp
  omega

/-- In a run whose groups have pairwise distinct workers (always the case
for `settledGroups`), the produced remittances are determined by their
worker. -/
theorem buildOutputs_worker_inj {db : DB} {sid : Nat} :
    ∀ {n : Nat} {gs : List (Nat × List TimeSegment)},
      (gs.map Prod.fst).Nodup →
      ∀ {p q : Remittance × List TimeSegment},
        p ∈ buildOutputs db sid n gs → q ∈ buildOutputs db sid n gs →
        p.1.worker_user_id = q.1.worker_user_id → p = q := by
  intro n gs
  induction gs generalizing n with
  | nil => intro _ p q hp; simp [buildOutputs] at hp
  | cons hd tl ih =>
      intro hnd p q hp hq hw
      obtain ⟨w, G⟩ := hd
      rw [List.map_cons, List.nodup_cons] at hnd
      rcases (List.mem_cons).mp hp with hp' | hp' <;>
        rcases (List.mem_cons).mp hq with hq' | hq'
      · exact hp'.trans hq'.symm
      · exfalso
        obtain ⟨w', hw', he⟩ := mem_buildOutputs hq'
        have h1 : p.1.worker_user_id = w := by rw [hp']; rfl
        have h2 : q.1.worker_user_id = w' := by rw [he]; rfl
        apply hnd.1
        have hweq : w = w' := by rw [← h1, hw, h2]
        rw [hweq]
        exact (List.mem_map).mpr ⟨(w', q.2), hw', rfl⟩
      · exfalso
        obtain ⟨w', hw', he⟩ := mem_buildOutputs hp'
        have h1 : q.1.worker_user_id = w := by rw [hq']; rfl
        have h2 : p.1.worker_user_id = w' := by rw [he]; rfl
        apply hnd.1
        have hweq : w = w' := by rw [← h1, ← hw, h2]
        rw [hweq]
        exact (List.mem_map).mpr ⟨(w', p.2), hw', rfl⟩
      · exact ih hnd.2 hp' hq' hw

theorem settledGroups_fst (db : DB) (ps pe : Nat) :
    (settledGroups db ps pe).map Prod.fst = runWorkers db ps pe := by
  simp [settledGroups, List.map_map, Function.comp_def]

theorem settledGroups_fst_nodup (db : DB) (ps pe : Nat) :
    ((settledGroups db ps pe).map Prod.fst).Nodup := by
  rw [settledGroups_fst]; exact List.nodup_dedup _

/-- Under WF, at most one output of a run covers a given segment id. -/
theorem runOutputs_ref_unique {db : DB} (hwf : WF db) {ps pe sid : Nat}
    {p q : Remittance × List TimeSegment}
    (hp : p ∈ runOutputs db ps pe) (hq : q ∈ runOutputs db ps pe)
    (hs : ∃ s ∈ p.2, s.id = sid) (ht : ∃ t ∈ q.2, t.id = sid) : p = q := by
  obtain ⟨s, hsmem, hsid⟩ := hs
  obtain ⟨t, htmem, htid⟩ := ht
  have hgp := (runOutputs_spec hp).1
  have hgq := (runOutputs_spec hq).1
  have hsws := (seg_of_group hgp hsmem).1
  have htws := (seg_of_group hgq htmem).1
  have hst : s = t :=
    seg_id_inj hwf (workingSet_props hsws).1 (workingSet_props htws).1
      (hsid.trans htid.symm)
  have hgeq := group_unique hgp hgq hsmem (hst ▸ htmem)
  have hw : p.1.worker_user_id = q.1.worker_user_id :=
    congrArg Prod.fst hgeq
  exact buildOutputs_worker_inj (settledGroups_fst_nodup db ps pe) hp hq hw

/-! ### Post-state projections -/

theorem postDB_segments (db : DB) (now ps pe : Nat) :
    (postDB db now ps pe).segments = db.segments := rfl

theorem postDB_worklogs (db : DB) (now ps pe : Nat) :
    (postDB db now ps pe).worklogs = db.worklogs := rfl

theorem postDB_adjustments (db : DB) (now ps pe : Nat) :
    (postDB db now ps pe).adjustments = db.adjustments := rfl

theorem postDB_settlements (db : DB) (now ps pe : Nat) :
    (postDB db now ps pe).settlements =
      db.settlements ++ [newSettlement db now ps pe] := rfl

theorem postDB_remittances (db : DB) (now ps pe : Nat) :
    (postDB db now ps pe).remittances =
      db.remittances ++ newRemittances db ps pe := rfl

theorem postDB_lines (db : DB) (now ps pe : Nat) :
    (postDB db now ps pe).lines = db.lines ++ newLines db ps pe := rfl

theorem postDB_nextId (db : DB) (now ps pe : Nat) :
    (postDB db now ps pe).nextId =
      db.nextId + 1 + (settledGroups db ps pe).length +
        (linePairs db ps pe).length := rfl

/-! ### Payers analysis -/

theorem length_le_one_of_allEq {α : Type} {l : List α} (hnd : l.Nodup)
    (h : ∀ a ∈ l, ∀ b ∈ l, a = b) : l.length ≤ 1 := by
  match l with
  | [] => simp
  | [a] => simp
  | a :: b :: t =>
      exfalso
      have hab : a = b := h a (by simp) b (by simp)
      rw [List.nodup_cons] at hnd
      exact hnd.1 (by rw [hab]; exact List.mem_cons_self b t)

theorem linked_of_mem_payers {db : DB} {sid : Nat} {r : Remittance}
    (h : r ∈ payers db sid) : linkedNonFailed db sid = true := by
  simp only [payers, List.mem_filter, Bool.and_eq_true, List.any_eq_true,
    beq_iff_eq] at h
  obtain ⟨hr, hst, l, hl, h1, h2⟩ := h
  simp only [linkedNonFailed, List.any_eq_true, Bool.and_eq_true, beq_iff_eq]
  exact ⟨l, hl, h2, r, hr, h1.symm, hst⟩

theorem payers_eq_nil_of_not_linked {db : DB} {sid : Nat}
    (h : linkedNonFailed db sid = false) : payers db sid = [] := by
  rw [List.eq_nil_iff_forall_not_mem]
  intro r hr
  rw [linked_of_mem_payers hr] at h
  exact absurd h (by simp)

/-- The payers of a segment id after a run: the old payers plus the newly
created remittances whose lines reference it. Old rows keep their
status, old lines reference only old remittances, new lines only new
ones. -/
theorem payers_postDB {db : DB} (hwf : WF db) (now ps pe sid : Nat) :
    payers (postDB db now ps pe) sid =
      payers db sid ++ ((newRemittances db ps pe).filter fun r =>
        (newLines db ps pe).any fun l =>
          l.remittance_id == r.id && l.time_segment_id == sid) := by
  unfold payers
  rw [postDB_remittances, List.filter_append]
  congr 1
  · apply List.filter_congr
    intro r hr
    rw [postDB_lines, List.any_append]
    have hnew : ((newLines db ps pe).any fun l =>
        l.remittance_id == r.id && l.time_segment_id == sid) = false := by
      rw [List.any_eq_false]
      intro l hl
      have hb := (newLines_rid_bounds hl).1
      have hro := hwf.1 r hr
      simp only [Bool.and_eq_true, beq_iff_eq, not_and]
      intro hlr
      omega
    rw [hnew, Bool.or_false]
  · apply List.filter_congr
    intro r hr
    obtain ⟨p, hp, hpr⟩ := (mem_newRemittances_iff db ps pe r).mp hr
    have hpend : r.status = RemittanceStatus.PENDING :=
      hpr ▸ (runOutputs_spec hp).2.1
    have hid : db.nextId + 1 ≤ r.id := by
      have := (runOutputs_id_bounds hp).1
      rw [← hpr]
      omega
    rw [postDB_lines, List.any_append]
    have hold : (db.lines.any fun l =>
        l.remittance_id == r.id && l.time_segment_id == sid) = false := by
      rw [List.any_eq_false]
      intro l hl
      have := hwf.2.1 l hl
      simp only [Bool.and_eq_true, beq_iff_eq, not_and]
      intro hlr
      omega
    rw [hold, Bool.false_or, hpend]
    simp

/-- At most one remittance created by a single run references a given
segment id: groups partition the working set and the working set has
unique ids. -/
theorem newRefs_length_le_one {db : DB} (hwf : WF db) (ps pe sid : Nat) :
    ((newRemittances db ps pe).filter fun r =>
      (newLines db ps pe).any fun l =>
        l.remittance_id == r.id && l.time_segment_id == sid).length ≤ 1 := by
  apply length_le_one_of_allEq ((newRemittances_nodup db ps pe).filter _)
  intro a ha b hb
  rw [List.mem_filter] at ha hb
  obtain ⟨ha1, ha2⟩ := ha
  obtain ⟨hb1, hb2⟩ := hb
  rw [List.any_eq_true] at ha2 hb2
  obtain ⟨la, hla, hca⟩ := ha2
  obtain ⟨lb, hlb, hcb⟩ := hb2
  simp only [Bool.and_eq_true, beq_iff_eq] at hca hcb
  obtain ⟨pa, hpa, sa, hsa, hra, hta, _⟩ := mem_newLines hla
  obtain ⟨pb, hpb, sb, hsb, hrb, htb, _⟩ := mem_newLines hlb
  obtain ⟨pa', hpa', haeq⟩ := (mem_newRemittances_iff db ps pe a).mp ha1
  obtain ⟨pb', hpb', hbeq⟩ := (mem_newRemittances_iff db ps pe b).mp hb1
  have h1 : pa = pa' := buildOutputs_id_inj hpa hpa'
    (by rw [← hra, hca.1, ← haeq])
  have h2 : pb = pb' := buildOutputs_id_inj hpb hpb'
    (by rw [← hrb, hcb.1, ← hbeq])
  have hpq : pa = pb := runOutputs_ref_unique hwf hpa hpb
    ⟨sa, hsa, by rw [← hta, hca.2]⟩ ⟨sb, hsb, by rw [← htb, hcb.2]⟩
  rw [← haeq, ← hbeq, ← h1, ← h2, hpq]

/-- A run only creates lines for segments it selected, and the selector
excludes segments already linked to a non-FAILED remittance. -/
theorem not_linked_of_newRefs_ne_nil {db : DB} {ps pe sid : Nat}
    (h : ((newRemittances db ps pe).filter fun r =>
      (newLines db ps pe).any fun l =>
        l.remittance_id == r.id && l.time_segment_id == sid) ≠ []) :
    linkedNonFailed db sid = false := by
  obtain ⟨r, hr⟩ := List.exists_mem_of_ne_nil _ h
  rw [List.mem_filter, List.any_eq_true] at hr
  obtain ⟨_, l, hl, hc⟩ := hr
  simp only [Bool.and_eq_true, beq_iff_eq] at hc
  obtain ⟨p, hp, s, hs, _, hts, _⟩ := mem_newLines hl
  have hws := (seg_of_group (runOutputs_spec hp).1 hs).1
  have := (workingSet_props hws).2.2
  rw [← hc.2, hts]
  exact this

/-- One run preserves the no-double-pay invariant. -/
theorem noDoublePay_postDB {db : DB} (hwf : WF db) (hndp : NoDoublePay db)
    (now ps pe : Nat) : NoDoublePay (postDB db now ps pe) := by
  intro s hs hdel
  rw [postDB_segments] at hs
  rw [payers_postDB hwf now ps pe s.id, List.length_append]
  by_cases hnil : ((newRemittances db ps pe).filter fun r =>
      (newLines db ps pe).any fun l =>
        l.remittance_id == r.id && l.time_segment_id == s.id) = []
  · rw [hnil]
    simpa using hndp s hs hdel
  · rw [payers_eq_nil_of_not_linked (not_linked_of_newRefs_ne_nil hnil)]
    simpa using newRefs_length_le_one hwf ps pe s.id

/-- One run preserves store well-formedness. -/
theorem wf_postDB {db : DB} (hwf : WF db) (now ps pe : Nat) :
    WF (postDB db now ps pe) := by
  refine ⟨?_, ?_, ?_, hwf.2.2.2.1, hwf.2.2.2.2⟩
  · intro r hr
    rw [postDB_remittances, List.mem_append] at hr
    rw [postDB_nextId]
    rcases hr with hr | hr
    · have := hwf.1 r hr; omega
    · obtain ⟨p, hp, hpr⟩ := (mem_newRemittances_iff db ps pe r).mp hr
      have hb := runOutputs_id_bounds hp
      rw [← hpr]
      omega
  · intro l hl
    rw [postDB_lines, List.mem_append] at hl
    rw [postDB_nextId]
    rcases hl with hl | hl
    · have := hwf.2.1 l hl; omega
    · have := newLines_rid_bounds hl; omega
  · rw [postDB_remittances, List.map_append, List.nodup_append]
    refine ⟨hwf.2.2.1, ?_, ?_⟩
    · rw [newRemittances_ids]
      exact List.nodup_range' _ _
    · intro x hxold hxnew
      rw [List.mem_map] at hxold
      obtain ⟨r, hr, hre⟩ := hxold
      have h1 := hwf.1 r hr
      rw [newRemittances_ids] at hxnew
      have h2 := (List.mem_range'_1.mp hxnew).1
      omega

/-! ### Iterated runs -/

theorem applyRun_eq (db : DB) (t : Nat × Nat × Nat) :
    applyRun db t = if t.2.2 < t.2.1 then db else postDB db t.1 t.2.1 t.2.2 := by
  unfold applyRun runSettlement
  by_cases h : t.2.2 < t.2.1 <;> simp [h]

theorem applyRuns_cons (db : DB) (t : Nat × Nat × Nat)
    (ts : List (Nat × Nat × Nat)) :
    applyRuns db (t :: ts) = applyRuns (applyRun db t) ts := rfl

/-- Well-formedness and no-double-pay are preserved by any sequence of
runs. -/
theorem wf_ndp_applyRuns {db : DB} (h : WF db ∧ NoDoublePay db)
    (runs : List (Nat × Nat × Nat)) :
    WF (applyRuns db runs) ∧ NoDoublePay (applyRuns db runs) := by
  induction runs generalizing db with
  | nil => exact h
  | cons t ts ih =>
      rw [applyRuns_cons]
      apply ih
      rw [applyRun_eq]
      by_cases hc : t.2.2 < t.2.1
      · rw [if_pos hc]; exact h
      · rw [if_neg hc]
        exact ⟨wf_postDB h.1 _ _ _, noDoublePay_postDB h.1 h.2 _ _ _⟩

/-- `linkedNonFailed` in terms of the data: the segment id is referenced by
a line of some PENDING or PAID remittance. -/
theorem linkedNonFailed_eq_true_iff (db : DB) (sid : Nat) :
    linkedNonFailed db sid = true ↔
      ∃ l ∈ db.lines, l.time_segment_id = sid ∧
        ∃ r ∈ db.remittances, r.id = l.remittance_id ∧
          (r.status = RemittanceStatus.PENDING ∨
            r.status = RemittanceStatus.PAID) := by
  simp only [linkedNonFailed, List.any_eq_true, Bool.and_eq_true, beq_iff_eq,
    Bool.not_eq_true', beq_eq_false_iff_ne, ne_eq]
  constructor
  · rintro ⟨l, hl, hts, r, hr, hid, hst⟩
    refine ⟨l, hl, hts, r, hr, hid, ?_⟩
    cases hs : r.status
    · exact Or.inl rfl
    · exact Or.inr rfl
    · exact absurd hs hst
  · rintro ⟨l, hl, hts, r, hr, hid, hst⟩
    refine ⟨l, hl, hts, r, hr, hid, ?_⟩
    rcases hst with hst | hst <;> rw [hst] <;> intro hc <;> exact
      RemittanceStatus.noConfusion hc

/-! ### Further helper lemmas -/

/-- `linkedFailed` in terms of the data. -/
theorem linkedFailed_eq_true_iff (db : DB) (sid : Nat) :
    linkedFailed db sid = true ↔
      ∃ l ∈ db.lines, l.time_segment_id = sid ∧
        ∃ r ∈ db.remittances, r.id = l.remittance_id ∧
          r.status = RemittanceStatus.FAILED := by
  simp only [linkedFailed, List.any_eq_true, Bool.and_eq_true, beq_iff_eq]

theorem deleted_not_in_workingSet {db : DB} {s : TimeSegment}
    (hdel : s.deleted_at ≠ none) (ps pe : Nat) : s ∉ workingSet db ps pe :=
  fun h => hdel (workingSet_props h).2.1

/-- No line created by a run references a soft-deleted segment. -/
theorem newLines_not_deleted {db : DB} (hwf : WF db) {s : TimeSegment}
    (hseg : s ∈ db.segments) (hdel : s.deleted_at ≠ none) (ps pe : Nat) :
    ∀ l ∈ newLines db ps pe, l.time_segment_id ≠ s.id := by
  intro l hl heq
  obtain ⟨p, hp, t, ht, _, hts, _⟩ := mem_newLines hl
  have htw := (seg_of_group (runOutputs_spec hp).1 ht).1
  have hts' : t.id = s.id := by rw [← hts, heq]
  have := seg_id_inj hwf (workingSet_props htw).1 hseg hts'
  exact deleted_not_in_workingSet hdel ps pe (this ▸ htw)

/-- Across any number of runs, lines are only ever appended, and no
appended line references a segment soft-deleted before the runs began. -/
theorem applyRuns_lines_avoid :
    ∀ (runs : List (Nat × Nat × Nat)) (db : DB), WF db →
      ∀ s : TimeSegment, s ∈ db.segments → s.deleted_at ≠ none →
      ∃ added, (applyRuns db runs).lines = db.lines ++ added ∧
        ∀ l ∈ added, l.time_segment_id ≠ s.id := by
  intro runs
  induction runs with
  | nil =>
      intro db _ s _ _
      exact ⟨[], (List.append_nil _).symm, by simp⟩
  | cons t ts ih =>
      intro db hwf s hseg hdel
      rw [applyRuns_cons, applyRun_eq]
      by_cases hc : t.2.2 < t.2.1
      · rw [if_pos hc]
        exact ih db hwf s hseg hdel
      · rw [if_neg hc]
        obtain ⟨added, hadd, havoid⟩ :=
          ih (postDB db t.1 t.2.1 t.2.2) (wf_postDB hwf t.1 t.2.1 t.2.2) s
            (show s ∈ (postDB db t.1 t.2.1 t.2.2).segments from hseg) hdel
        refine ⟨newLines db t.2.1 t.2.2 ++ added, ?_, ?_⟩
        · rw [hadd, postDB_lines, List.append_assoc]
        · intro l hl
          rcases List.mem_append.mp hl with hl | hl
          · exact newLines_not_deleted hwf hseg hdel t.2.1 t.2.2 l hl
          · exact havoid l hl

theorem mem_runWorkers_iff (db : DB) (ps pe w : Nat) :
    w ∈ runWorkers db ps pe ↔
      ∃ s ∈ workingSet db ps pe, workerOf db s = some w := by
  simp [runWorkers, List.mem_dedup, List.mem_filterMap]

theorem mem_touchedWorklogs_of_mem {G : List TimeSegment} {s : TimeSegment}
    (hs : s ∈ G) : s.worklog_id ∈ touchedWorklogs G := by
  simp only [touchedWorklogs, List.mem_dedup, List.mem_map]
  exact ⟨s, hs, rfl⟩

/-- Splitting one member out of a signed sum. -/
theorem sum_map_eq_add_erase {α : Type} [DecidableEq α] (f : α → ℚ)
    {l : List α} {a : α} (ha : a ∈ l) :
    (l.map f).sum = f a + ((l.erase a).map f).sum := by
  have hperm : List.Perm l (a :: l.erase a) := List.perm_cons_erase ha
  rw [(hperm.map f).sum_eq, List.map_cons, List.sum_cons]

/-- `isRemitted` in terms of the data: every non-deleted segment of the
worklog is linked to a PAID remittance line. -/
theorem isRemitted_eq_true_iff (db : DB) (wid : Nat) :
    isRemitted db wid = true ↔
      ∀ s ∈ db.segments, s.worklog_id = wid → s.deleted_at = none →
        ∃ l ∈ db.lines, l.time_segment_id = s.id ∧
          ∃ r ∈ db.remittances, r.id = l.remittance_id ∧
            r.status = RemittanceStatus.PAID := by
  simp only [isRemitted, List.all_eq_true, worklogSegments, List.mem_filter,
    Bool.and_eq_true, beq_iff_eq, Option.isNone_iff_eq_none, segmentPaid,
    List.any_eq_true, and_imp]

/-- Every listed item is the view of one stored worklog. -/
theorem mem_list_worklogs {db : DB} {skip limit : Nat} {f : Option RemitFilter}
    {item : WorkLogItem} (h : item ∈ (list_worklogs db skip limit f).1) :
    ∃ w ∈ db.worklogs,
      item = WorkLogItem.mk w.id w.worker_user_id w.task_identifier
        (worklogTotal db w.id) (isRemitted db w.id) := by
  unfold list_worklogs at h
  have h1 := List.mem_of_mem_drop (List.mem_of_mem_take h)
  have h2 : item ∈ db.worklogs.map fun w =>
      WorkLogItem.mk w.id w.worker_user_id w.task_identifier
        (worklogTotal db w.id) (isRemitted db w.id) := by
    rcases f with _ | f
    · exact h1
    · cases f <;> exact List.mem_of_mem_filter h1
  obtain ⟨w, hw, he⟩ := List.mem_map.mp h2
  exact ⟨w, hw, he.symm⟩

/-! ### Claim theorems -/

/-- C5: InvalidPeriod rejection — for every pair of dates with
period_start > period_end, a settlement run fails with `InvalidPeriod`
before anything executes, and the store is left completely unchanged: no
Settlement, Remittance, or RemittanceLine is created. -/
theorem invalid_period_rejected (db : DB) (now ps pe : Nat) (h : pe < ps) :
    runSettlement db now ps pe = Except.error EngineError.invalidPeriod ∧
      applyRun db (now, ps, pe) = db := by
  constructor
  · unfold runSettlement
    rw [if_pos h]
  · rw [applyRun_eq]
    exact if_pos h

theorem invalid_period_rejected_witness :
    (0 : Nat) < 1 ∧
      (runSettlement dbEmpty 0 1 0 = Except.error EngineError.invalidPeriod ∧
        applyRun dbEmpty (0, 1, 0) = dbEmpty) :=
  ⟨by decide, invalid_period_rejected dbEmpty 0 1 0 (by decide)⟩

/-- C6: Period boundary correctness — a non-deleted, not-yet-settled
segment dated exactly `period_start` or `period_end` is selected by the
period-scoped query (inclusive both ends), while any segment dated
`period_end + 1` is excluded from it. -/
theorem period_boundary_inclusive (db : DB) (ps pe : Nat) (hle : ps ≤ pe)
    (s : TimeSegment) (hmem : s ∈ db.segments) (hdel : s.deleted_at = none)
    (hfree : linkedNonFailed db s.id = false)
    (hdate : s.segment_date = ps ∨ s.segment_date = pe) :
    s ∈ select_unsettled_segments db ps pe ∧
      ∀ t : TimeSegment, t.segment_date = pe + 1 →
        t ∉ select_unsettled_segments db ps pe := by
  constructor
  · rcases hdate with h | h <;>
      exact (mem_select_unsettled_iff db ps pe s).mpr
        ⟨hmem, hdel, by omega, by omega, hfree⟩
  · intro t ht hmem'
    obtain ⟨_, _, _, h2, _⟩ := (mem_select_unsettled_iff db ps pe t).mp hmem'
    omega

theorem period_boundary_inclusive_witness :
    ((5 : Nat) ≤ 5 ∧ segNeg ∈ dbNeg.segments ∧ segNeg.deleted_at = none ∧
      linkedNonFailed dbNeg segNeg.id = false ∧
      (segNeg.segment_date = 5 ∨ segNeg.segment_date = 5)) ∧
      (segNeg ∈ select_unsettled_segments dbNeg 5 5 ∧
        ∀ t : TimeSegment, t.segment_date = 5 + 1 →
          t ∉ select_unsettled_segments dbNeg 5 5) :=
  ⟨⟨by decide, by decide, by decide, by decide, by decide⟩,
    period_boundary_inclusive dbNeg 5 5 (by decide) segNeg (by decide)
      (by decide) (by decide) (by decide)⟩

/-- C1: No double-pay — starting from a well-formed store satisfying the
invariant, across any number of settlement runs every non-soft-deleted
segment is referenced by at most one Remittance whose status is not
FAILED, and the Eligibility Selector's working set never contains a
segment already linked via a RemittanceLine to a Remittance in status
PENDING or PAID. -/
theorem no_double_pay_across_runs (db : DB) (hwf : WF db)
    (hndp : NoDoublePay db) (runs : List (Nat × Nat × Nat)) :
    NoDoublePay (applyRuns db runs) ∧
      ∀ ps pe : Nat, ∀ s ∈ workingSet (applyRuns db runs) ps pe,
        ¬ ∃ l ∈ (applyRuns db runs).lines, l.time_segment_id = s.id ∧
          ∃ r ∈ (applyRuns db runs).remittances, r.id = l.remittance_id ∧
            (r.status = RemittanceStatus.PENDING ∨
              r.status = RemittanceStatus.PAID) := by
  refine ⟨(wf_ndp_applyRuns ⟨hwf, hndp⟩ runs).2, ?_⟩
  intro ps pe s hs hex
  have hfalse := (workingSet_props hs).2.2
  have htrue := (linkedNonFailed_eq_true_iff (applyRuns db runs) s.id).mpr hex
  rw [hfalse] at htrue
  exact absurd htrue (by simp)

theorem no_double_pay_across_runs_witness :
    (WF dbNeg ∧ NoDoublePay dbNeg) ∧
      (NoDoublePay (applyRuns dbNeg [(0, 5, 5)]) ∧
        ∀ ps pe : Nat, ∀ s ∈ workingSet (applyRuns dbNeg [(0, 5, 5)]) ps pe,
          ¬ ∃ l ∈ (applyRuns dbNeg [(0, 5, 5)]).lines,
            l.time_segment_id = s.id ∧
            ∃ r ∈ (applyRuns dbNeg [(0, 5, 5)]).remittances,
              r.id = l.remittance_id ∧
              (r.status = RemittanceStatus.PENDING ∨
                r.status = RemittanceStatus.PAID)) :=
  ⟨⟨by decide, by decide⟩,
    no_double_pay_across_runs dbNeg (by decide) (by decide) [(0, 5, 5)]⟩

/-- C7: Idempotent no-op and zero-activity exclusion — a run over a valid
period with zero eligible segments still creates a Settlement but zero
Remittances, returning `remittances_created = 0` and total gross and net
amounts of 0; and a worker owning no eligible segment of the run never
produces a Remittance. -/
theorem empty_period_noop_and_zero_activity (db : DB) (now ps pe : Nat)
    (hle : ps ≤ pe) (hempty : workingSet db ps pe = []) :
    (∃ db' res, runSettlement db now ps pe = Except.ok (db', res) ∧
      res.remittances_created = 0 ∧ res.total_gross_amount = 0 ∧
      res.total_net_amount = 0 ∧
      res.settlement.total_remittances_generated = 0 ∧
      db'.settlements = db.settlements ++ [res.settlement] ∧
      db'.remittances = db.remittances ∧ db'.lines = db.lines) ∧
    (∀ db2 : DB, ∀ ps2 pe2 : Nat, ∀ w : Nat,
      (∀ s ∈ workingSet db2 ps2 pe2, workerOf db2 s ≠ some w) →
      ∀ r ∈ newRemittances db2 ps2 pe2, r.worker_user_id ≠ w) := by
  constructor
  · have hg : settledGroups db ps pe = [] := by
      simp [settledGroups, runWorkers, hempty]
    have hr : newRemittances db ps pe = [] := by
      simp [newRemittances, runOutputs, hg, buildOutputs]
    have hl2 : newLines db ps pe = [] := by
      simp [newLines, linePairs, runOutputs, hg, buildOutputs, buildLines]
    refine ⟨postDB db now ps pe, runResult db now ps pe,
      ?_, ?_, ?_, ?_, ?_, ?_, ?_, ?_⟩
    · unfold runSettlement
      rw [if_neg (by omega)]
    · simp [runResult, hr]
    · simp [runResult, hr]
    · simp [runResult, hr]
    · simp [runResult, newSettlement, hr]
    · rw [postDB_settlements]; rfl
    · rw [postDB_remittances, hr, List.append_nil]
    · rw [postDB_lines, hl2, List.append_nil]
  · intro db2 ps2 pe2 w hw r hrm heq
    obtain ⟨p, hp, hpr⟩ := (mem_newRemittances_iff db2 ps2 pe2 r).mp hrm
    have hgrp := (runOutputs_spec hp).1
    have hwmem : p.1.worker_user_id ∈ runWorkers db2 ps2 pe2 :=
      ((mem_settledGroups_iff db2 ps2 pe2 _).mp hgrp).1
    obtain ⟨s, hs, hws⟩ := (mem_runWorkers_iff db2 ps2 pe2 _).mp hwmem
    exact hw s hs (by rw [hws, hpr, heq])

theorem empty_period_noop_and_zero_activity_witness :
    ((5 : Nat) ≤ 5 ∧ workingSet dbEmpty 5 5 = []) ∧
      (∃ db' res, runSettlement dbEmpty 0 5 5 = Except.ok (db', res) ∧
        res.remittances_created = 0 ∧ res.total_gross_amount = 0 ∧
        res.total_net_amount = 0 ∧
        res.settlement.total_remittances_generated = 0 ∧
        db'.settlements = dbEmpty.settlements ++ [res.settlement] ∧
        db'.remittances = dbEmpty.remittances ∧ db'.lines = dbEmpty.lines) :=
  ⟨⟨by decide, by decide⟩,
    (empty_period_noop_and_zero_activity dbEmpty 0 5 5 (by decide)
      (by decide)).1⟩

/-- C2: Retroactive adjustment — every Adjustment of a worklog contributes
its signed amount (+amount for ADDITION, −amount for DEDUCTION) to the net
of the remittance produced by any run whose working set touches a segment
of that worklog. No hypothesis relates the adjustment's creation to the
segments' dates or to prior paid remittances: the contribution is
unconditional. -/
theorem retroactive_adjustment_applies (db : DB) (now ps pe : Nat)
    (hle : ps ≤ pe) (p : Remittance × List TimeSegment)
    (hp : p ∈ runOutputs db ps pe) (s : TimeSegment) (hs : s ∈ p.2)
    (a : Adjustment) (ha : a ∈ db.adjustments)
    (haw : a.worklog_id = s.worklog_id) :
    (∃ db' res, runSettlement db now ps pe = Except.ok (db', res) ∧
      p.1 ∈ db'.remittances) ∧
    p.1.net_amount = p.1.gross_amount + p.1.adjustments_amount ∧
    p.1.adjustments_amount = a.signedAmount +
      (((db.adjustments.filter fun x =>
          (touchedWorklogs p.2).contains x.worklog_id).erase a).map
        Adjustment.signedAmount).sum := by
  have hspec := runOutputs_spec hp
  refine ⟨?_, ?_, ?_⟩
  · refine ⟨postDB db now ps pe, runResult db now ps pe, ?_, ?_⟩
    · unfold runSettlement
      rw [if_neg (by omega)]
    · rw [postDB_remittances, List.mem_append]
      exact Or.inr ((mem_newRemittances_iff db ps pe p.1).mpr ⟨p, hp, rfl⟩)
  · rw [hspec.2.2.2.2.2, hspec.2.2.2.1, hspec.2.2.2.2.1]
  · rw [hspec.2.2.2.2.1]
    have hmem : a ∈ db.adjustments.filter fun x =>
        (touchedWorklogs p.2).contains x.worklog_id := by
      rw [List.mem_filter]
      refine ⟨ha, ?_⟩
      have : a.worklog_id ∈ touchedWorklogs p.2 :=
        haw ▸ mem_touchedWorklogs_of_mem hs
      simpa using this
    exact sum_map_eq_add_erase Adjustment.signedAmount hmem

theorem retroactive_adjustment_applies_witness :
    ((5 : Nat) ≤ 5 ∧
      (mkRemittance dbNeg 4 5 7 [segNeg], [segNeg]) ∈ runOutputs dbNeg 5 5 ∧
      segNeg ∈ [segNeg] ∧ adjNeg ∈ dbNeg.adjustments ∧
      adjNeg.worklog_id = segNeg.worklog_id) ∧
    ((∃ db' res, runSettlement dbNeg 0 5 5 = Except.ok (db', res) ∧
        mkRemittance dbNeg 4 5 7 [segNeg] ∈ db'.remittances) ∧
      (mkRemittance dbNeg 4 5 7 [segNeg]).net_amount =
        (mkRemittance dbNeg 4 5 7 [segNeg]).gross_amount +
          (mkRemittance dbNeg 4 5 7 [segNeg]).adjustments_amount ∧
      (mkRemittance dbNeg 4 5 7 [segNeg]).adjustments_amount =
        adjNeg.signedAmount +
          (((dbNeg.adjustments.filter fun x =>
              (touchedWorklogs [segNeg]).contains x.worklog_id).erase
            adjNeg).map Adjustment.signedAmount).sum) :=
  ⟨⟨by decide, by exact List.mem_cons_self _ _, by decide, by decide,
      by decide⟩,
    retroactive_adjustment_applies dbNeg 0 5 5 (by decide)
      (mkRemittance dbNeg 4 5 7 [segNeg], [segNeg])
      (by exact List.mem_cons_self _ _)
      segNeg (by decide) adjNeg (by decide) (by decide)⟩

/-- C3: Failed-run recovery — a non-deleted segment linked to a FAILED
remittance and to no PENDING/PAID remittance is included in the very next
run's working set regardless of the run's period bounds; the run produces
a new PENDING Remittance with a line referencing the segment, while the
existing remittance rows (the FAILED one included) are only appended to,
never mutated or deleted. -/
theorem failed_run_recovery (db : DB) (hwf : WF db) (now ps pe : Nat)
    (hle : ps ≤ pe) (s : TimeSegment) (hseg : s ∈ db.segments)
    (hdel : s.deleted_at = none)
    (hfail : ∃ l ∈ db.lines, l.time_segment_id = s.id ∧
      ∃ r ∈ db.remittances, r.id = l.remittance_id ∧
        r.status = RemittanceStatus.FAILED)
    (honly : ¬ ∃ l ∈ db.lines, l.time_segment_id = s.id ∧
      ∃ r ∈ db.remittances, r.id = l.remittance_id ∧
        (r.status = RemittanceStatus.PENDING ∨
          r.status = RemittanceStatus.PAID)) :
    s ∈ workingSet db ps pe ∧
    ∃ db' res, runSettlement db now ps pe = Except.ok (db', res) ∧
      db'.remittances = db.remittances ++ newRemittances db ps pe ∧
      db'.lines = db.lines ++ newLines db ps pe ∧
      ∃ r ∈ newRemittances db ps pe, r.status = RemittanceStatus.PENDING ∧
        ∃ l ∈ newLines db ps pe,
          l.remittance_id = r.id ∧ l.time_segment_id = s.id := by
  have hLF : linkedFailed db s.id = true :=
    (linkedFailed_eq_true_iff db s.id).mpr hfail
  have hNF : linkedNonFailed db s.id = false := by
    cases h : linkedNonFailed db s.id
    · rfl
    · exact absurd ((linkedNonFailed_eq_true_iff db s.id).mp h) honly
  have hws : s ∈ workingSet db ps pe := by
    rw [mem_workingSet_iff]
    exact Or.inr ((mem_select_failed_iff db s).mpr ⟨hseg, hdel, hLF, hNF⟩)
  refine ⟨hws, postDB db now ps pe, runResult db now ps pe, ?_, rfl, rfl, ?_⟩
  · unfold runSettlement
    rw [if_neg (by omega)]
  · obtain ⟨pr, hpr, hspr⟩ := group_exists_of_wf hwf hws
    have hpr' : (pr.1, pr.2) ∈ settledGroups db ps pe := by
      rwa [Prod.mk.eta]
    obtain ⟨p, hp, hpw, hpG⟩ := buildOutputs_mem_of_mem hpr'
    have hsp2 : s ∈ p.2 := by rw [hpG]; exact hspr
    refine ⟨p.1, ?_, (runOutputs_spec hp).2.1, ?_⟩
    · exact (mem_newRemittances_iff db ps pe p.1).mpr ⟨p, hp, rfl⟩
    · exact newLines_of_group_mem hp hsp2

theorem failed_run_recovery_witness :
    (WF dbFailed ∧ (20 : Nat) ≤ 30 ∧ segFailed ∈ dbFailed.segments ∧
      segFailed.deleted_at = none ∧
      (∃ l ∈ dbFailed.lines, l.time_segment_id = segFailed.id ∧
        ∃ r ∈ dbFailed.remittances, r.id = l.remittance_id ∧
          r.status = RemittanceStatus.FAILED) ∧
      ¬ ∃ l ∈ dbFailed.lines, l.time_segment_id = segFailed.id ∧
        ∃ r ∈ dbFailed.remittances, r.id = l.remittance_id ∧
          (r.status = RemittanceStatus.PENDING ∨
            r.status = RemittanceStatus.PAID)) ∧
    (segFailed ∈ workingSet dbFailed 20 30 ∧
      ∃ db' res, runSettlement dbFailed 0 20 30 = Except.ok (db', res) ∧
        db'.remittances = dbFailed.remittances ++ newRemittances dbFailed 20 30 ∧
        db'.lines = dbFailed.lines ++ newLines dbFailed 20 30 ∧
        ∃ r ∈ newRemittances dbFailed 20 30,
          r.status = RemittanceStatus.PENDING ∧
          ∃ l ∈ newLines dbFailed 20 30,
            l.remittance_id = r.id ∧ l.time_segment_id = segFailed.id) :=
  ⟨⟨by decide, by decide, by decide, by decide, by decide, by decide⟩,
    failed_run_recovery dbFailed (by decide) 0 20 30 (by decide) segFailed
      (by decide) (by decide) (by decide) (by decide)⟩

/-- C4: Soft-delete exclusion — a segment with non-null `deleted_at` is
never part of any run's working set or any remittance's segment group,
no RemittanceLine created by any number of later runs references it, and
removing it from the store changes no worklog's `total_amount`: it
contributes nothing to any aggregation after its deletion. -/
theorem soft_delete_exclusion (db : DB) (hwf : WF db) (s : TimeSegment)
    (hseg : s ∈ db.segments) (hdel : s.deleted_at ≠ none) :
    (∀ ps pe : Nat, s ∉ workingSet db ps pe) ∧
    (∀ ps pe : Nat, ∀ p ∈ runOutputs db ps pe, s ∉ p.2) ∧
    (∀ runs : List (Nat × Nat × Nat), ∃ added,
      (applyRuns db runs).lines = db.lines ++ added ∧
      ∀ l ∈ added, l.time_segment_id ≠ s.id) ∧
    (∀ wid : Nat,
      worklogTotal
        { db with segments := db.segments.filter fun t => !(t.id == s.id) }
        wid = worklogTotal db wid) := by
  refine ⟨fun ps pe => deleted_not_in_workingSet hdel ps pe, ?_, ?_, ?_⟩
  · intro ps pe p hp hsp
    exact deleted_not_in_workingSet hdel ps pe
      (seg_of_group (runOutputs_spec hp).1 hsp).1
  · exact fun runs => applyRuns_lines_avoid runs db hwf s hseg hdel
  · intro wid
    have hptwise : ∀ t ∈ db.segments,
        ((t.worklog_id == wid && t.deleted_at.isNone) &&
          !(t.id == s.id)) =
        (t.worklog_id == wid && t.deleted_at.isNone) := by
      intro t ht
      by_cases hid : t.id = s.id
      · have hts : t = s := seg_id_inj hwf ht hseg hid
        rcases hds : s.deleted_at with _ | v
        · exact absurd hds hdel
        · rw [hts]
          simp [hds]
      · simp [hid]
    have hsegs : worklogSegments
        { db with segments := db.segments.filter fun t => !(t.id == s.id) }
        wid = worklogSegments db wid := by
      unfold worklogSegments
      rw [List.filter_filter]
      exact List.filter_congr hptwise
    unfold worklogTotal
    rw [hsegs]

theorem soft_delete_exclusion_witness :
    (WF dbDeleted ∧ segDeleted ∈ dbDeleted.segments ∧
      segDeleted.deleted_at ≠ none) ∧
    ((∀ ps pe : Nat, segDeleted ∉ workingSet dbDeleted ps pe) ∧
      (∀ ps pe : Nat, ∀ p ∈ runOutputs dbDeleted ps pe, segDeleted ∉ p.2) ∧
      (∀ runs : List (Nat × Nat × Nat), ∃ added,
        (applyRuns dbDeleted runs).lines = dbDeleted.lines ++ added ∧
        ∀ l ∈ added, l.time_segment_id ≠ segDeleted.id) ∧
      (∀ wid : Nat,
        worklogTotal
          { dbDeleted with
            segments :=
              dbDeleted.segments.filter fun t => !(t.id == segDeleted.id) }
          wid = worklogTotal dbDeleted wid)) :=
  ⟨⟨by decide, by decide, by decide⟩,
    soft_delete_exclusion dbDeleted (by decide) segDeleted (by decide)
      (by decide)⟩

/-- C8: Amount arithmetic — a single segment's `gross_amount` is
`hours_worked × hourly_rate`; each remittance's gross is the exact
rational sum of `hours_worked × hourly_rate` over its included segments;
net equals gross plus the signed adjustments sum; and net is not clamped:
the concrete store `dbNeg` yields a remittance with negative net. -/
theorem amount_arithmetic_exact (db : DB) (ps pe : Nat)
    (p : Remittance × List TimeSegment) (hp : p ∈ runOutputs db ps pe) :
    (∀ t : TimeSegment, t.gross_amount = t.hours_worked * t.hourly_rate) ∧
    p.1.gross_amount = (p.2.map fun t => t.hours_worked * t.hourly_rate).sum ∧
    p.1.net_amount = p.1.gross_amount + p.1.adjustments_amount ∧
    ∃ q ∈ runOutputs dbNeg 5 5, q.1.net_amount < 0 := by
  have hspec := runOutputs_spec hp
  refine ⟨fun t => rfl, ?_, ?_, ?_⟩
  · rw [hspec.2.2.2.1]
    rfl
  · rw [hspec.2.2.2.2.2, hspec.2.2.2.1, hspec.2.2.2.2.1]
  · refine ⟨(mkRemittance dbNeg 4 5 7 [segNeg], [segNeg]),
      by exact List.mem_cons_self _ _, ?_⟩
    show (mkRemittance dbNeg 4 5 7 [segNeg]).net_amount < 0
    norm_num [mkRemittance, groupGross, groupAdjustments, touchedWorklogs,
      segNeg, adjNeg, dbNeg, TimeSegment.gross_amount, Adjustment.signedAmount]

theorem amount_arithmetic_exact_witness :
    (mkRemittance dbNeg 4 5 7 [segNeg], [segNeg]) ∈ runOutputs dbNeg 5 5 ∧
    ((∀ t : TimeSegment, t.gross_amount = t.hours_worked * t.hourly_rate) ∧
      (mkRemittance dbNeg 4 5 7 [segNeg]).gross_amount =
        ([segNeg].map fun t => t.hours_worked * t.hourly_rate).sum ∧
      (mkRemittance dbNeg 4 5 7 [segNeg]).net_amount =
        (mkRemittance dbNeg 4 5 7 [segNeg]).gross_amount +
          (mkRemittance dbNeg 4 5 7 [segNeg]).adjustments_amount ∧
      ∃ q ∈ runOutputs dbNeg 5 5, q.1.net_amount < 0) :=
  ⟨by exact List.mem_cons_self _ _,
    amount_arithmetic_exact dbNeg 5 5
      (mkRemittance dbNeg 4 5 7 [segNeg], [segNeg])
      (by exact List.mem_cons_self _ _)⟩

/-- C9: Worklog listing semantics — every item `list_worklogs` returns has
`total_amount` equal to the sum of its worklog's non-deleted segments'
gross amounts plus all of its adjustments (signed), and `is_remitted` true
iff every non-deleted segment of the worklog is linked to a PAID
remittance line; in particular a worklog with a non-deleted segment whose
remittances are all still PENDING reports `is_remitted = false`. -/
theorem worklog_listing_semantics (db : DB) (skip limit : Nat)
    (f : Option RemitFilter) (item : WorkLogItem)
    (hitem : item ∈ (list_worklogs db skip limit f).1) :
    item.total_amount =
      ((db.segments.filter fun s =>
          s.worklog_id == item.id && s.deleted_at.isNone).map
        TimeSegment.gross_amount).sum +
      ((db.adjustments.filter fun a => a.worklog_id == item.id).map
        Adjustment.signedAmount).sum ∧
    (item.is_remitted = true ↔
      ∀ s ∈ db.segments, s.worklog_id = item.id → s.deleted_at = none →
        ∃ l ∈ db.lines, l.time_segment_id = s.id ∧
          ∃ r ∈ db.remittances, r.id = l.remittance_id ∧
            r.status = RemittanceStatus.PAID) ∧
    ((∃ s ∈ db.segments, s.worklog_id = item.id ∧ s.deleted_at = none) →
      (∀ r ∈ db.remittances, r.status = RemittanceStatus.PENDING) →
      item.is_remitted = false) := by
  obtain ⟨w, hw, he⟩ := mem_list_worklogs hitem
  have hid : item.id = w.id := by rw [he]
  have htot : item.total_amount = worklogTotal db w.id := by rw [he]
  have hrem : item.is_remitted = isRemitted db w.id := by rw [he]
  refine ⟨?_, ?_, ?_⟩
  · rw [htot, hid]
    rfl
  · rw [hrem, hid]
    exact isRemitted_eq_true_iff db w.id
  · rw [hrem, hid]
    intro hex hall
    cases hir : isRemitted db w.id
    · rfl
    · exfalso
      obtain ⟨s, hs, hwid, hdels⟩ := hex
      obtain ⟨l, hl, hts, r, hr, hidr, hst⟩ :=
        (isRemitted_eq_true_iff db w.id).mp hir s hs hwid hdels
      have hpend := hall r hr
      rw [hpend] at hst
      exact RemittanceStatus.noConfusion hst

theorem worklog_listing_semantics_witness :
    WorkLogItem.mk 1 7 "T9" (worklogTotal dbPending 1)
        (isRemitted dbPending 1) ∈
      (list_worklogs dbPending 0 10 none).1 ∧
    ((WorkLogItem.mk 1 7 "T9" (worklogTotal dbPending 1)
        (isRemitted dbPending 1)).total_amount =
      ((dbPending.segments.filter fun s =>
          s.worklog_id == 1 && s.deleted_at.isNone).map
        TimeSegment.gross_amount).sum +
      ((dbPending.adjustments.filter fun a => a.worklog_id == 1).map
        Adjustment.signedAmount).sum ∧
    ((WorkLogItem.mk 1 7 "T9" (worklogTotal dbPending 1)
        (isRemitted dbPending 1)).is_remitted = true ↔
      ∀ s ∈ dbPending.segments, s.worklog_id = 1 → s.deleted_at = none →
        ∃ l ∈ dbPending.lines, l.time_segment_id = s.id ∧
          ∃ r ∈ dbPending.remittances, r.id = l.remittance_id ∧
            r.status = RemittanceStatus.PAID) ∧
    ((∃ s ∈ dbPending.segments, s.worklog_id = 1 ∧ s.deleted_at = none) →
      (∀ r ∈ dbPending.remittances,
        r.status = RemittanceStatus.PENDING) →
      (WorkLogItem.mk 1 7 "T9" (worklogTotal dbPending 1)
        (isRemitted dbPending 1)).is_remitted = false)) ∧
    (WorkLogItem.mk 1 7 "T9" (worklogTotal dbPending 1)
      (isRemitted dbPending 1)).is_remitted = false :=
  ⟨by exact List.mem_cons_self _ _,
    worklog_listing_semantics dbPending 0 10 none
      (WorkLogItem.mk 1 7 "T9" (worklogTotal dbPending 1)
        (isRemitted dbPending 1))
      (by exact List.mem_cons_self _ _),
    (worklog_listing_semantics dbPending 0 10 none
      (WorkLogItem.mk 1 7 "T9" (worklogTotal dbPending 1)
        (isRemitted dbPending 1))
      (by exact List.mem_cons_self _ _)).2.2 (by decide) (by decide)⟩

/-- C10: Implicit default period end — when `period_end` is omitted at the
generate-remittances entry point, the run behaves exactly as if invoked
with `period_end = today`: the results coincide, the persisted Settlement
records `period_end = today`, and any eligible segment dated today is in
the run's working set. -/
theorem default_period_end_today (db : DB) (today ps : Nat) :
    generate_remittances_for_all_users db today ps none =
      generate_remittances_for_all_users db today ps (some today) ∧
    (ps ≤ today → ∃ db' res,
      generate_remittances_for_all_users db today ps none =
        Except.ok (db', res) ∧
      res.settlement.period_end = today ∧
      db'.settlements = db.settlements ++ [res.settlement] ∧
      ∀ s ∈ db.segments, s.deleted_at = none →
        linkedNonFailed db s.id = false → s.segment_date = today →
          s ∈ workingSet db ps today) := by
  refine ⟨rfl, ?_⟩
  intro hle
  refine ⟨postDB db today ps today, runResult db today ps today, ?_, rfl,
    rfl, ?_⟩
  · unfold generate_remittances_for_all_users runSettlement
    rw [Option.getD_none, if_neg (by omega)]
  · intro s hs hdels hfree hdate
    rw [mem_workingSet_iff]
    exact Or.inl ((mem_select_unsettled_iff db ps today s).mpr
      ⟨hs, hdels, by omega, by omega, hfree⟩)

theorem default_period_end_today_witness :
    (generate_remittances_for_all_users dbNeg 5 5 none =
      generate_remittances_for_all_users dbNeg 5 5 (some 5)) ∧
    ((5 : Nat) ≤ 5) ∧
    (∃ db' res,
      generate_remittances_for_all_users dbNeg 5 5 none =
        Except.ok (db', res) ∧
      res.settlement.period_end = 5 ∧
      db'.settlements = dbNeg.settlements ++ [res.settlement] ∧
      ∀ s ∈ dbNeg.segments, s.deleted_at = none →
        linkedNonFailed dbNeg s.id = false → s.segment_date = 5 →
          s ∈ workingSet dbNeg 5 5) :=
  ⟨(default_period_end_today dbNeg 5 5).1, by decide,
    (default_period_end_today dbNeg 5 5).2 (by decide)⟩

end WorklogSettlement
